import Mathlib

/-!
Verification of the incremental workout-history synchronization engine of the
trainheroic-dash repository (src/src/workoutUtils.ts, current revision, plus
the presentation-layer merge in the App component).

The TypeScript source is shallowly embedded: network calls and the wall clock
are inputs (an `Env` record of pre-determined responses), `localStorage` is a
typed `Store` state, JavaScript exceptions are `Except Unit`, and the
date-parsing behaviour of `new Date(s).getTime()` is an abstract
`getTime : String → Int` parameter.  All definitions are executable.
-/

namespace TrainHeroic

/-- Value found in the `setNumber` field of a raw set coming from the API:
a JSON value that may be a number, a string, or absent
(the code checks `typeof set.setNumber === "number"`). -/
inductive SetNumber where
  | num (n : Int)
  | str (s : String)
  | missing
deriving DecidableEq, Repr

/-- One raw set of a HistoryEntry as delivered by the API, before the
valid-set filter of workoutUtils.ts lines 513-515.  `rawValue1` is the
repetition count and `rawValue2` the optional load. -/
structure RawSet where
  setNumber : SetNumber
  rawValue1 : Option Int
  rawValue2 : Option Int
deriving DecidableEq, Repr

/-- The filter predicate of lines 513-515: `typeof set.setNumber === "number"`. -/
def RawSet.isValid (s : RawSet) : Bool :=
  match s.setNumber with
  | .num _ => true
  | _ => false

/-- An exercise from the exercise list (`getHistory` response).  Ids are
numeric in the source domain; the code compares them via `String(e.id) ===
String(stat.exercise_id)`, which on integers agrees with integer equality. -/
structure Exercise where
  id : Int
  title : String
deriving DecidableEq, Repr

/-- One completed occurrence of an exercise (`getExerciseHistory` response
element).  `dateCompleted` is `none` when the JSON field is missing or not a
string (the code checks `typeof date === "string"`); `sets` is `none` when
missing or not an array; `bestEstimated1RM` is carried opaquely. -/
structure HistoryEntry where
  dateCompleted : Option String
  programWorkoutId : Option Int
  sets : Option (List RawSet)
  bestEstimated1RM : Option Int
deriving DecidableEq, Repr

/-- A WorkoutExercise of the persisted model (api.ts `WorkoutExercise`). -/
structure WorkoutExercise where
  id : Int
  title : String
  sets : List RawSet
  bestEstimated1RM : Option Int
deriving DecidableEq, Repr

/-- A Workout of the persisted model (api.ts `Workout`). -/
structure Workout where
  date : String
  programWorkoutId : Option Int
  exercises : List WorkoutExercise
deriving DecidableEq, Repr

/-- The exercise-usage stat embedded in a remote workout summary
(`exercise_stats` elements).  `exercise_id` is `none` when absent. -/
structure ExerciseStat where
  exercise_id : Option Int
deriving DecidableEq, Repr

/-- A remote workout summary returned by `getRecentWorkouts`. -/
structure RecentWorkout where
  id : Option Int
  date : Option String
  exercise_stats : Option (List ExerciseStat)
deriving DecidableEq, Repr

/-!
The JavaScript object `workoutsByDate : Record<string, Workout>` is modelled
as an association list in insertion order (the workout dates are plain string
keys, so `Object.values` enumerates them in insertion order), with lookup and
JS-style assignment (overwrite in place, else append).
-/

/-- Date-keyed workout map, in insertion order. -/
abbrev WMap := List (String × Workout)

/-- Lookup `m[d]` in a workout map. -/
def wfind (m : WMap) (d : String) : Option Workout :=
  (m.find? (fun p => p.1 == d)).map (fun p => p.2)

/-- JS-object assignment `m[d] = w`: overwrite in place if the key exists,
otherwise append at the end. -/
def wset (m : WMap) (d : String) (w : Workout) : WMap :=
  match m with
  | [] => [(d, w)]
  | p :: rest => if p.1 == d then (d, w) :: rest else p :: wset rest d w

/-- `Object.values m` in insertion order. -/
def wvalues (m : WMap) : List Workout :=
  m.map (fun p => p.2)

/-- Step of workoutUtils.ts lines 502-508: create the workout entry for a
date when the map does not hold one yet. -/
def ensureDate (m : WMap) (date : String) (pid : Option Int) : WMap :=
  if (wfind m date).isNone then
    wset m date { date := date, programWorkoutId := pid, exercises := [] }
  else m

/-- Step of workoutUtils.ts lines 517-535: append a WorkoutExercise built
from the already-filtered sets, unless the workout of that date already
holds one with the same exercise id (`findIndex` test of lines 520-522). -/
def addExercise (m : WMap) (date : String) (exercise : Exercise)
    (validSets : List RawSet) (best : Option Int) : WMap :=
  match wfind m date with
  | none => m
  | some workout =>
    if (workout.exercises.find? (fun e => e.id == exercise.id)).isSome then m
    else
      wset m date
        { workout with
          exercises := workout.exercises ++
            [{ id := exercise.id, title := exercise.title, sets := validSets,
               bestEstimated1RM := best }] }

/-- Merge of one history entry of one exercise into the workout map,
translated from the body of the entry loop of `getWorkoutHistory`
(workoutUtils.ts lines 497-539): when `dateCompleted` is a string, create
the date entry when absent, and when the entry carries a sets array, filter
it to the sets with numeric `setNumber` and append a WorkoutExercise unless
one with this exercise id is already there (the defensive
`workout && exercise` null checks on typed non-null values are omitted). -/
def mergeHistoryEntry (m : WMap) (exercise : Exercise) (entry : HistoryEntry) : WMap :=
  match entry.dateCompleted with
  | none => m
  | some date =>
    let m := ensureDate m date entry.programWorkoutId
    match entry.sets with
    | none => m
    | some sets =>
      addExercise m date exercise (sets.filter RawSet.isValid) entry.bestEstimated1RM

/-- Merge all history entries of one exercise, in order (inner loop of
lines 497-539). -/
def mergeHistory (m : WMap) (exercise : Exercise) (entries : List HistoryEntry) : WMap :=
  entries.foldl (fun m e => mergeHistoryEntry m exercise e) m

/-- Merge a sequence of (exercise, history) results, in order (outer loop of
lines 493-540). -/
def mergeResults (m : WMap) (results : List (Exercise × List HistoryEntry)) : WMap :=
  results.foldl (fun m r => mergeHistory m r.1 r.2) m

/-! Basic facts about `wfind` and `wset`. -/

theorem wfind_cons (p : String × Workout) (rest : WMap) (d : String) :
    wfind (p :: rest) d = if p.1 = d then some p.2 else wfind rest d := by
  by_cases h : p.1 = d <;> simp [wfind, List.find?_cons, h]

theorem wfind_wset_self (m : WMap) (d : String) (w : Workout) :
    wfind (wset m d w) d = some w := by
  induction m with
  | nil => simp [wfind, wset]
  | cons p rest ih =>
    by_cases h : p.1 = d
    · simp [wset, h, wfind_cons]
    · simp [wset, h, wfind_cons, ih]

theorem wfind_wset_ne (m : WMap) (d d' : String) (w : Workout) (h : d' ≠ d) :
    wfind (wset m d w) d' = wfind m d' := by
  induction m with
  | nil => simp [wfind, wset, List.find?_cons, Ne.symm h]
  | cons p rest ih =>
    by_cases hp : p.1 = d
    · simp [wset, hp, wfind_cons, Ne.symm h]
    · simp [wset, hp, wfind_cons, ih]

theorem find?_isSome_append_left {α : Type} (p : α → Bool) {l l' : List α}
    (h : (l.find? p).isSome) : ((l ++ l').find? p).isSome := by
  induction l with
  | nil => simp [List.find?] at h
  | cons a l ih =>
    cases hp : p a with
    | true => simp [List.find?_cons, hp]
    | false =>
      rw [List.find?_cons, hp] at h
      rw [List.cons_append, List.find?_cons, hp]
      exact ih h

theorem find?_isSome_append_singleton {α : Type} (p : α → Bool) {x : α} (l : List α)
    (hx : p x = true) : ((l ++ [x]).find? p).isSome := by
  induction l with
  | nil => simp [List.find?_cons, hx]
  | cons a l ih =>
    cases hp : p a with
    | true => simp [List.find?_cons, hp]
    | false =>
      rw [List.cons_append, List.find?_cons, hp]
      exact ih

/-- The workout map holds an exercise with id `i` on date `d`. -/
def hasEx (m : WMap) (d : String) (i : Int) : Prop :=
  ∃ w, wfind m d = some w ∧ (w.exercises.find? (fun e => e.id == i)).isSome

/-- A history entry of an exercise is settled in a map: its date key exists,
and when it carries a sets array, its exercise id is already present there. -/
def settledEntry (m : WMap) (exercise : Exercise) (entry : HistoryEntry) : Prop :=
  ∀ d, entry.dateCompleted = some d →
    (wfind m d).isSome ∧ (∀ ss, entry.sets = some ss → hasEx m d exercise.id)

theorem wfind_ensureDate_self (m : WMap) (d : String) (pid : Option Int) :
    (wfind (ensureDate m d pid) d).isSome := by
  unfold ensureDate
  cases hm : wfind m d with
  | none => simp [wfind_wset_self]
  | some w => simp [hm]

theorem ensureDate_of_isSome {m : WMap} {d : String} (pid : Option Int)
    (h : (wfind m d).isSome) : ensureDate m d pid = m := by
  unfold ensureDate
  rcases Option.isSome_iff_exists.mp h with ⟨w, hw⟩
  simp [hw]

theorem wfind_ensureDate_ne (m : WMap) {d d' : String} (pid : Option Int) (h : d' ≠ d) :
    wfind (ensureDate m d pid) d' = wfind m d' := by
  unfold ensureDate
  split
  · exact wfind_wset_ne _ _ _ _ h
  · rfl

theorem addExercise_eq_of_none {m : WMap} {d : String} (exercise : Exercise)
    (vs : List RawSet) (b : Option Int) (h : wfind m d = none) :
    addExercise m d exercise vs b = m := by
  unfold addExercise
  rw [h]

theorem addExercise_eq_of_found {m : WMap} {d : String} {w : Workout} {exercise : Exercise}
    (vs : List RawSet) (b : Option Int) (h : wfind m d = some w)
    (hf : (w.exercises.find? (fun e => e.id == exercise.id)).isSome = true) :
    addExercise m d exercise vs b = m := by
  unfold addExercise
  rw [h]
  exact if_pos hf

theorem addExercise_eq_of_notFound {m : WMap} {d : String} {w : Workout} {exercise : Exercise}
    (vs : List RawSet) (b : Option Int) (h : wfind m d = some w)
    (hf : (w.exercises.find? (fun e => e.id == exercise.id)).isSome = false) :
    addExercise m d exercise vs b =
      wset m d
        { w with
          exercises := w.exercises ++
            [{ id := exercise.id, title := exercise.title, sets := vs,
               bestEstimated1RM := b }] } := by
  unfold addExercise
  rw [h]
  exact if_neg (by simp [hf])

theorem wfind_addExercise_ne (m : WMap) {d d' : String} (exercise : Exercise)
    (vs : List RawSet) (b : Option Int) (h : d' ≠ d) :
    wfind (addExercise m d exercise vs b) d' = wfind m d' := by
  cases hm : wfind m d with
  | none => rw [addExercise_eq_of_none _ _ _ hm]
  | some w =>
    cases hf : (w.exercises.find? (fun e => e.id == exercise.id)).isSome with
    | true => rw [addExercise_eq_of_found _ _ hm hf]
    | false => rw [addExercise_eq_of_notFound _ _ hm hf, wfind_wset_ne _ _ _ _ h]

theorem wfind_isSome_addExercise {m : WMap} {d' : String} (d : String) (exercise : Exercise)
    (vs : List RawSet) (b : Option Int) (h : (wfind m d').isSome) :
    (wfind (addExercise m d exercise vs b) d').isSome := by
  by_cases hde : d' = d
  · subst hde
    rcases Option.isSome_iff_exists.mp h with ⟨w, hw⟩
    cases hf : (w.exercises.find? (fun e => e.id == exercise.id)).isSome with
    | true => rw [addExercise_eq_of_found _ _ hw hf]; exact h
    | false => rw [addExercise_eq_of_notFound _ _ hw hf, wfind_wset_self]; rfl
  · rw [wfind_addExercise_ne _ _ _ _ hde]
    exact h

theorem hasEx_addExercise {m : WMap} {d' : String} {i : Int} (d : String) (exercise : Exercise)
    (vs : List RawSet) (b : Option Int) (h : hasEx m d' i) :
    hasEx (addExercise m d exercise vs b) d' i := by
  rcases h with ⟨w, hw, hfound⟩
  by_cases hde : d' = d
  · subst hde
    cases hf : (w.exercises.find? (fun e => e.id == exercise.id)).isSome with
    | true => rw [addExercise_eq_of_found _ _ hw hf]; exact ⟨w, hw, hfound⟩
    | false =>
      rw [addExercise_eq_of_notFound _ _ hw hf]
      exact ⟨_, wfind_wset_self _ _ _, find?_isSome_append_left _ hfound⟩
  · exact ⟨w, by rw [wfind_addExercise_ne _ _ _ _ hde]; exact hw, hfound⟩

theorem hasEx_addExercise_self {m : WMap} {d : String} (exercise : Exercise)
    (vs : List RawSet) (b : Option Int) (h : (wfind m d).isSome) :
    hasEx (addExercise m d exercise vs b) d exercise.id := by
  rcases Option.isSome_iff_exists.mp h with ⟨w, hw⟩
  cases hf : (w.exercises.find? (fun e => e.id == exercise.id)).isSome with
  | true => rw [addExercise_eq_of_found _ _ hw hf]; exact ⟨w, hw, hf⟩
  | false =>
    rw [addExercise_eq_of_notFound _ _ hw hf]
    exact ⟨_, wfind_wset_self _ _ _, find?_isSome_append_singleton _ _ (by simp)⟩

theorem addExercise_of_hasEx {m : WMap} {d : String} {exercise : Exercise}
    (vs : List RawSet) (b : Option Int) (h : hasEx m d exercise.id) :
    addExercise m d exercise vs b = m := by
  rcases h with ⟨w, hw, hfound⟩
  exact addExercise_eq_of_found _ _ hw hfound

theorem mergeHistoryEntry_of_none {m : WMap} {exercise : Exercise} {entry : HistoryEntry}
    (h : entry.dateCompleted = none) : mergeHistoryEntry m exercise entry = m := by
  unfold mergeHistoryEntry
  rw [h]

theorem mergeHistoryEntry_eq_of_noSets {m : WMap} {exercise : Exercise} {entry : HistoryEntry}
    {d : String} (hd : entry.dateCompleted = some d) (hs : entry.sets = none) :
    mergeHistoryEntry m exercise entry = ensureDate m d entry.programWorkoutId := by
  unfold mergeHistoryEntry
  rw [hd, hs]

theorem mergeHistoryEntry_eq_of_sets {m : WMap} {exercise : Exercise} {entry : HistoryEntry}
    {d : String} {ss : List RawSet} (hd : entry.dateCompleted = some d)
    (hs : entry.sets = some ss) :
    mergeHistoryEntry m exercise entry =
      addExercise (ensureDate m d entry.programWorkoutId) d exercise
        (ss.filter RawSet.isValid) entry.bestEstimated1RM := by
  unfold mergeHistoryEntry
  rw [hd, hs]

theorem wfind_isSome_mergeHistoryEntry {m : WMap} (exercise : Exercise) (entry : HistoryEntry)
    {d' : String} (h : (wfind m d').isSome) :
    (wfind (mergeHistoryEntry m exercise entry) d').isSome := by
  cases hd : entry.dateCompleted with
  | none => rw [mergeHistoryEntry_of_none hd]; exact h
  | some date =>
    have h1 : (wfind (ensureDate m date entry.programWorkoutId) d').isSome := by
      by_cases hde : d' = date
      · subst hde; exact wfind_ensureDate_self _ _ _
      · rw [wfind_ensureDate_ne _ _ hde]; exact h
    cases hs : entry.sets with
    | none => rw [mergeHistoryEntry_eq_of_noSets hd hs]; exact h1
    | some ss =>
      rw [mergeHistoryEntry_eq_of_sets hd hs]
      exact wfind_isSome_addExercise _ _ _ _ h1

theorem hasEx_mergeHistoryEntry {m : WMap} (exercise : Exercise) (entry : HistoryEntry)
    {d' : String} {i : Int} (h : hasEx m d' i) :
    hasEx (mergeHistoryEntry m exercise entry) d' i := by
  cases hd : entry.dateCompleted with
  | none => rw [mergeHistoryEntry_of_none hd]; exact h
  | some date =>
    have h1 : hasEx (ensureDate m date entry.programWorkoutId) d' i := by
      rcases h with ⟨w, hw, hfound⟩
      by_cases hde : d' = date
      · subst hde
        rw [ensureDate_of_isSome _ (by simp [hw])]
        exact ⟨w, hw, hfound⟩
      · exact ⟨w, by rw [wfind_ensureDate_ne _ _ hde]; exact hw, hfound⟩
    cases hs : entry.sets with
    | none => rw [mergeHistoryEntry_eq_of_noSets hd hs]; exact h1
    | some ss =>
      rw [mergeHistoryEntry_eq_of_sets hd hs]
      exact hasEx_addExercise _ _ _ _ h1

theorem settledEntry_mergeHistoryEntry {m : WMap} {exercise : Exercise} {entry : HistoryEntry}
    (exercise' : Exercise) (entry' : HistoryEntry)
    (h : settledEntry m exercise entry) :
    settledEntry (mergeHistoryEntry m exercise' entry') exercise entry := by
  intro d hd
  obtain ⟨h1, h2⟩ := h d hd
  refine ⟨wfind_isSome_mergeHistoryEntry _ _ h1, fun ss hss => ?_⟩
  exact hasEx_mergeHistoryEntry _ _ (h2 ss hss)

theorem mergeHistoryEntry_settles (m : WMap) (exercise : Exercise) (entry : HistoryEntry) :
    settledEntry (mergeHistoryEntry m exercise entry) exercise entry := by
  intro d hd
  have h1 : (wfind (ensureDate m d entry.programWorkoutId) d).isSome :=
    wfind_ensureDate_self _ _ _
  cases hss : entry.sets with
  | none =>
    rw [mergeHistoryEntry_eq_of_noSets hd hss]
    exact ⟨h1, fun ss h' => nomatch h'⟩
  | some ss =>
    rw [mergeHistoryEntry_eq_of_sets hd hss]
    refine ⟨wfind_isSome_addExercise _ _ _ _ h1, fun ss' h' => ?_⟩
    exact hasEx_addExercise_self _ _ _ h1

theorem mergeHistoryEntry_of_settled {m : WMap} {exercise : Exercise} {entry : HistoryEntry}
    (h : settledEntry m exercise entry) : mergeHistoryEntry m exercise entry = m := by
  cases hd : entry.dateCompleted with
  | none => exact mergeHistoryEntry_of_none hd
  | some d =>
    obtain ⟨h1, h2⟩ := h d hd
    cases hss : entry.sets with
    | none => rw [mergeHistoryEntry_eq_of_noSets hd hss, ensureDate_of_isSome _ h1]
    | some ss =>
      rw [mergeHistoryEntry_eq_of_sets hd hss, ensureDate_of_isSome _ h1]
      exact addExercise_of_hasEx _ _ (h2 ss hss)

theorem mergeHistory_cons (m : WMap) (exercise : Exercise) (e : HistoryEntry)
    (es : List HistoryEntry) :
    mergeHistory m exercise (e :: es) = mergeHistory (mergeHistoryEntry m exercise e) exercise es :=
  rfl

theorem mergeResults_cons (m : WMap) (r : Exercise × List HistoryEntry)
    (rs : List (Exercise × List HistoryEntry)) :
    mergeResults m (r :: rs) = mergeResults (mergeHistory m r.1 r.2) rs :=
  rfl

theorem settledEntry_mergeHistory {m : WMap} {exercise : Exercise} {entry : HistoryEntry}
    (exercise' : Exercise) (es : List HistoryEntry)
    (h : settledEntry m exercise entry) :
    settledEntry (mergeHistory m exercise' es) exercise entry := by
  induction es generalizing m with
  | nil => exact h
  | cons e es ih =>
    rw [mergeHistory_cons]
    exact ih (settledEntry_mergeHistoryEntry _ _ h)

theorem settledEntry_mergeResults {m : WMap} {exercise : Exercise} {entry : HistoryEntry}
    (rs : List (Exercise × List HistoryEntry))
    (h : settledEntry m exercise entry) :
    settledEntry (mergeResults m rs) exercise entry := by
  induction rs generalizing m with
  | nil => exact h
  | cons r rs ih =>
    rw [mergeResults_cons]
    exact ih (settledEntry_mergeHistory _ _ h)

theorem mergeHistory_settles (m : WMap) (exercise : Exercise) (es : List HistoryEntry) :
    ∀ e ∈ es, settledEntry (mergeHistory m exercise es) exercise e := by
  induction es generalizing m with
  | nil => intro e he; cases he
  | cons e' es ih =>
    intro e he
    rw [mergeHistory_cons]
    rcases List.mem_cons.mp he with rfl | he
    · exact settledEntry_mergeHistory _ _ (mergeHistoryEntry_settles _ _ _)
    · exact ih _ e he

theorem mergeResults_settles (m : WMap) (rs : List (Exercise × List HistoryEntry)) :
    ∀ r ∈ rs, ∀ e ∈ r.2, settledEntry (mergeResults m rs) r.1 e := by
  induction rs generalizing m with
  | nil => intro r hr; cases hr
  | cons r' rs ih =>
    intro r hr e he
    rw [mergeResults_cons]
    rcases List.mem_cons.mp hr with rfl | hr
    · exact settledEntry_mergeResults _ (mergeHistory_settles _ _ _ _ he)
    · exact ih _ r hr e he

theorem mergeHistory_of_settled {m : WMap} {exercise : Exercise} {es : List HistoryEntry}
    (h : ∀ e ∈ es, settledEntry m exercise e) : mergeHistory m exercise es = m := by
  induction es with
  | nil => rfl
  | cons e es ih =>
    rw [mergeHistory_cons, mergeHistoryEntry_of_settled (h e (List.mem_cons_self _ _))]
    exact ih fun e' he' => h e' (List.mem_cons_of_mem _ he')

theorem mergeResults_of_settled {m : WMap} {rs : List (Exercise × List HistoryEntry)}
    (h : ∀ r ∈ rs, ∀ e ∈ r.2, settledEntry m r.1 e) : mergeResults m rs = m := by
  induction rs with
  | nil => rfl
  | cons r rs ih =>
    rw [mergeResults_cons, mergeHistory_of_settled (h r (List.mem_cons_self _ _))]
    exact ih fun r' hr' => h r' (List.mem_cons_of_mem _ hr')

/-! Concrete data used by the witnesses and counterexamples below. -/

/-- Concrete exercise used by witnesses. -/
def exSquat : Exercise := { id := 1, title := "Back Squat" }

/-- A set of 5 reps at 225 lb. -/
def set225 : RawSet := { setNumber := .num 1, rawValue1 := some 5, rawValue2 := some 225 }

/-- A set of 5 reps at 315 lb. -/
def set315 : RawSet := { setNumber := .num 1, rawValue1 := some 5, rawValue2 := some 315 }

/-- The cached WorkoutExercise for the squat with the 225-lb set. -/
def weSquat : WorkoutExercise :=
  { id := 1, title := "Back Squat", sets := [set225], bestEstimated1RM := some 253 }

/-- The cached workout of 2025-01-01. -/
def wJan1 : Workout :=
  { date := "2025-01-01", programWorkoutId := some 7, exercises := [weSquat] }

/-- A workout map already containing the squat on 2025-01-01. -/
def mJan : WMap := [("2025-01-01", wJan1)]

/-- A later history entry for the same exercise and date with different sets. -/
def entry315 : HistoryEntry :=
  { dateCompleted := some "2025-01-01", programWorkoutId := some 7,
    sets := some [set315], bestEstimated1RM := some 354 }

/-- C1.  Immutability of past workouts during merge: when the workout map
already holds a WorkoutExercise with the merged exercise's id on the entry's
date, `mergeHistoryEntry` returns the map unchanged — in particular that
WorkoutExercise's sets and bestEstimated1RM stay exactly as they were, the
new entry is discarded, no set lists are merged and no max of
bestEstimated1RM is taken. -/
theorem merge_immutable_past (m : WMap) (exercise : Exercise) (entry : HistoryEntry)
    (d : String) (w : Workout)
    (hdate : entry.dateCompleted = some d)
    (hfound : wfind m d = some w)
    (hex : (w.exercises.find? (fun e => e.id == exercise.id)).isSome = true) :
    mergeHistoryEntry m exercise entry = m := by
  cases hss : entry.sets with
  | none =>
    rw [mergeHistoryEntry_eq_of_noSets hdate hss]
    exact ensureDate_of_isSome _ (by simp [hfound])
  | some ss =>
    rw [mergeHistoryEntry_eq_of_sets hdate hss, ensureDate_of_isSome _ (by simp [hfound])]
    exact addExercise_eq_of_found _ _ hfound hex

/-- Witness for C1 at the spec's concrete scenario: exercise X on date D
with sets 5x225 cached; merging an entry with sets 5x315 for the same
exercise and date leaves the map unchanged. -/
theorem merge_immutable_past_witness :
    wfind mJan "2025-01-01" = some wJan1 ∧
      (wJan1.exercises.find? (fun e => e.id == exSquat.id)).isSome = true ∧
      mergeHistoryEntry mJan exSquat entry315 = mJan :=
  ⟨by decide, by decide,
    merge_immutable_past mJan exSquat entry315 "2025-01-01" wJan1 rfl (by decide) (by decide)⟩

/-- C3.  Idempotence of merge: merging the same sequence of
(exercise, history entries) results into a workout map twice yields the same
map as merging it once — no duplicate WorkoutExercise entries and no set
duplication. -/
theorem merge_idempotent (m : WMap) (rs : List (Exercise × List HistoryEntry)) :
    mergeResults (mergeResults m rs) rs = mergeResults m rs :=
  mergeResults_of_settled (mergeResults_settles m rs)

/-- The malformed set of the spec's example: a string `setNumber`. -/
def setMalformed : RawSet := { setNumber := .str "x", rawValue1 := some 5, rawValue2 := none }

/-- The valid set of the spec's example: `setNumber` 2. -/
def setTwo : RawSet := { setNumber := .num 2, rawValue1 := some 3, rawValue2 := some 100 }

/-- History entry whose sets array mixes a malformed and a valid set. -/
def entryMixed : HistoryEntry :=
  { dateCompleted := some "2025-02-03", programWorkoutId := none,
    sets := some [setMalformed, setTwo], bestEstimated1RM := none }

/-- C9.  Malformed-set filtering: when a history entry is merged and its
exercise is appended, the appended WorkoutExercise's sets are exactly the
entry's sets whose `setNumber` is a number; the others are silently
dropped. -/
theorem merge_filters_malformed_sets (m : WMap) (exercise : Exercise) (entry : HistoryEntry)
    (d : String) (ss : List RawSet)
    (hdate : entry.dateCompleted = some d)
    (hsets : entry.sets = some ss)
    (hnew : ∀ w, wfind m d = some w →
      (w.exercises.find? (fun e => e.id == exercise.id)).isSome = false) :
    ∃ w', wfind (mergeHistoryEntry m exercise entry) d = some w' ∧
      w'.exercises.getLast? = some
        { id := exercise.id, title := exercise.title, sets := ss.filter RawSet.isValid,
          bestEstimated1RM := entry.bestEstimated1RM } := by
  rw [mergeHistoryEntry_eq_of_sets hdate hsets]
  cases hm : wfind m d with
  | none =>
    have he : ensureDate m d entry.programWorkoutId =
        wset m d { date := d, programWorkoutId := entry.programWorkoutId, exercises := [] } := by
      unfold ensureDate
      rw [hm]
      rfl
    rw [he]
    rw [addExercise_eq_of_notFound _ _ (wfind_wset_self _ _ _) (by simp [List.find?])]
    exact ⟨_, wfind_wset_self _ _ _, rfl⟩
  | some w =>
    rw [ensureDate_of_isSome _ (by simp [hm])]
    rw [addExercise_eq_of_notFound _ _ hm (hnew w hm)]
    exact ⟨_, wfind_wset_self _ _ _, List.getLast?_concat _⟩

/-- Witness for C9 at the spec's example: the sets array with entries
(setNumber "x") and (setNumber 2) yields a WorkoutExercise with exactly the
single set numbered 2. -/
theorem merge_filters_malformed_sets_witness :
    [setMalformed, setTwo].filter RawSet.isValid = [setTwo] ∧
      (∃ w', wfind (mergeHistoryEntry [] exSquat entryMixed) "2025-02-03" = some w' ∧
        w'.exercises.getLast? = some
          { id := exSquat.id, title := exSquat.title,
            sets := [setMalformed, setTwo].filter RawSet.isValid,
            bestEstimated1RM := entryMixed.bestEstimated1RM }) :=
  ⟨by decide,
    merge_filters_malformed_sets [] exSquat entryMixed "2025-02-03" [setMalformed, setTwo]
      rfl rfl (fun w hw => by simp [wfind] at hw)⟩

/-!
Sorting.  Every sort site of the source is
`.sort((a, b) => new Date(b.date).getTime() - new Date(a.date).getTime())`;
the date interpretation of the JS runtime is abstracted as a function
`getTime : String → Int`, and an element `a` may precede `b` exactly when the
comparator is non-positive, i.e. `getTime b.date ≤ getTime a.date`
(date descending).  The sort itself is modelled by insertion sort, which is
sorted with respect to that comparator like `Array.prototype.sort`.
-/

/-- The comparator relation of the date-descending sorts: `a` may precede
`b` when `getTime(b.date) - getTime(a.date) ≤ 0`. -/
def dateDescRel (getTime : String → Int) : Workout → Workout → Prop :=
  fun a b => getTime b.date ≤ getTime a.date

instance (getTime : String → Int) : DecidableRel (dateDescRel getTime) :=
  fun a b => inferInstanceAs (Decidable (getTime b.date ≤ getTime a.date))

instance (getTime : String → Int) : IsTotal Workout (dateDescRel getTime) :=
  ⟨fun a b => le_total (getTime b.date) (getTime a.date)⟩

instance (getTime : String → Int) : IsTrans Workout (dateDescRel getTime) :=
  ⟨fun _ _ _ h1 h2 => le_trans h2 h1⟩

/-- Date-descending sort of a workout list. -/
def sortByDateDesc (getTime : String → Int) (l : List Workout) : List Workout :=
  List.insertionSort (dateDescRel getTime) l

theorem sortByDateDesc_perm (getTime : String → Int) (l : List Workout) :
    List.Perm (sortByDateDesc getTime l) l :=
  List.perm_insertionSort _ l

theorem sortByDateDesc_sorted (getTime : String → Int) (l : List Workout) :
    List.Sorted (dateDescRel getTime) (sortByDateDesc getTime l) :=
  List.sorted_insertionSort _ l

theorem mem_sortByDateDesc {getTime : String → Int} {l : List Workout} {w : Workout}
    (h : w ∈ l) : w ∈ sortByDateDesc getTime l :=
  ((sortByDateDesc_perm getTime l).mem_iff).mpr h

/-! Key and date-consistency invariants of workout maps. -/

/-- The keys of a workout map, in insertion order. -/
def wkeys (m : WMap) : List String :=
  m.map (fun p => p.1)

/-- Every value of the map carries its key as its date. -/
def datesConsistent (m : WMap) : Prop :=
  ∀ p ∈ m, (p.2 : Workout).date = p.1

theorem wkeys_wset (m : WMap) (d : String) (w : Workout) :
    wkeys (wset m d w) = if d ∈ wkeys m then wkeys m else wkeys m ++ [d] := by
  induction m with
  | nil => simp [wkeys, wset]
  | cons p rest ih =>
    by_cases h : p.1 = d
    · simp [wkeys, wset, h]
    · simp only [wset, beq_iff_eq, h, if_false, wkeys, List.map_cons] at ih ⊢
      rw [ih]
      by_cases hm : d ∈ rest.map (fun p => p.1)
      · simp [hm, Ne.symm h]
      · simp [hm, Ne.symm h]

theorem wkeys_nodup_wset {m : WMap} (d : String) (w : Workout)
    (h : (wkeys m).Nodup) : (wkeys (wset m d w)).Nodup := by
  rw [wkeys_wset]
  split
  · exact h
  · rename_i hd
    simp [List.nodup_append, h, hd]

theorem datesConsistent_wset {m : WMap} {d : String} {w : Workout}
    (h : datesConsistent m) (hw : w.date = d) : datesConsistent (wset m d w) := by
  induction m with
  | nil => intro p hp; simp [wset] at hp; simp [hp, hw]
  | cons q rest ih =>
    by_cases hq : q.1 = d
    · intro p hp
      simp only [wset, beq_iff_eq, hq, if_true] at hp
      rcases List.mem_cons.mp hp with rfl | hp
      · exact hw
      · exact h p (List.mem_cons_of_mem _ hp)
    · intro p hp
      simp only [wset, beq_iff_eq, hq, if_false] at hp
      rcases List.mem_cons.mp hp with rfl | hp
      · exact h p (List.mem_cons_self _ _)
      · exact ih (fun p' hp' => h p' (List.mem_cons_of_mem _ hp')) p hp

theorem wvalues_map_date {m : WMap} (h : datesConsistent m) :
    (wvalues m).map Workout.date = wkeys m := by
  induction m with
  | nil => rfl
  | cons p rest ih =>
    simp only [wvalues, wkeys, List.map_cons]
    rw [show p.2.date = p.1 from h p (List.mem_cons_self _ _)]
    have := ih (fun q hq => h q (List.mem_cons_of_mem _ hq))
    simp only [wvalues, wkeys] at this
    rw [this]

theorem wfind_mem_wvalues {m : WMap} {d : String} {w : Workout}
    (h : wfind m d = some w) : w ∈ wvalues m := by
  unfold wfind at h
  cases hf : m.find? (fun p => p.1 == d) with
  | none => rw [hf] at h; cases h
  | some p =>
    rw [hf] at h
    cases h
    exact List.mem_map_of_mem _ (List.mem_of_find?_eq_some hf)

/-!
The presentation-layer fold of incremental-refresh results into the held
workout list, from the App component (src/unnamed/part_007).  The
`handleRefresh` merge (lines 226-246) and the `handleLogin` merge
(lines 108-128) are the same algorithm: build a JS `Map` of the existing
workouts keyed by date, then for each new workout either replace by date
(non-empty exercises) or add only when the date is absent (empty
exercises), and finally sort the values by date descending.
-/

/-- One step of the new-workout loop (part_007 lines 232-242): a workout
with a non-empty exercises list is always `set` (replacing any entry of its
date), one with an empty exercises list is `set` only when its date is not
yet a key. -/
def refreshStep (m : WMap) (w : Workout) : WMap :=
  if w.exercises.length > 0 then wset m w.date w
  else if (wfind m w.date).isSome then m
  else wset m w.date w

/-- The presentation-layer merge of `handleRefresh`/`handleLogin`: existing
workouts keyed by date, new workouts folded via `refreshStep`, values
sorted by date descending. -/
def mergeNewWorkouts (getTime : String → Int) (workouts newWorkouts : List Workout) :
    List Workout :=
  let workoutsByDate := workouts.foldl (fun m w => wset m w.date w) ([] : WMap)
  sortByDateDesc getTime (wvalues (newWorkouts.foldl refreshStep workoutsByDate))

theorem wfind_refreshStep_ne {m : WMap} {w : Workout} {d : String} (h : d ≠ w.date) :
    wfind (refreshStep m w) d = wfind m d := by
  unfold refreshStep
  split
  · exact wfind_wset_ne _ _ _ _ h
  · split
    · rfl
    · exact wfind_wset_ne _ _ _ _ h

theorem wfind_foldl_refreshStep_notMem {ns : List Workout} {m : WMap} {d : String}
    (h : ∀ w ∈ ns, d ≠ w.date) :
    wfind (ns.foldl refreshStep m) d = wfind m d := by
  induction ns generalizing m with
  | nil => rfl
  | cons n rest ih =>
    rw [List.foldl_cons, ih (fun w hw => h w (List.mem_cons_of_mem _ hw))]
    exact wfind_refreshStep_ne (h n (List.mem_cons_self _ _))

theorem wfind_foldl_refreshStep_nonempty {ns : List Workout} {m : WMap} {w : Workout}
    (hn : (ns.map Workout.date).Nodup) (hw : w ∈ ns) (hne : w.exercises.length > 0) :
    wfind (ns.foldl refreshStep m) w.date = some w := by
  induction ns generalizing m with
  | nil => cases hw
  | cons n rest ih =>
    rw [List.foldl_cons]
    rw [List.map_cons, List.nodup_cons] at hn
    rcases List.mem_cons.mp hw with rfl | hw
    · have hout : ∀ w' ∈ rest, w.date ≠ w'.date := by
        intro w' hw' hc
        exact hn.1 (by rw [hc]; exact List.mem_map_of_mem _ hw')
      rw [wfind_foldl_refreshStep_notMem hout]
      unfold refreshStep
      rw [if_pos hne]
      exact wfind_wset_self _ _ _
    · exact ih hn.2 hw


theorem wfind_foldl_refreshStep_empty {ns : List Workout} {m : WMap} {w : Workout}
    (hn : (ns.map Workout.date).Nodup) (hw : w ∈ ns) (hne : w.exercises.length = 0) :
    wfind (ns.foldl refreshStep m) w.date = some ((wfind m w.date).getD w) := by
  induction ns generalizing m with
  | nil => cases hw
  | cons n rest ih =>
    rw [List.foldl_cons]
    rw [List.map_cons, List.nodup_cons] at hn
    rcases List.mem_cons.mp hw with rfl | hw
    · have hout : ∀ w' ∈ rest, w.date ≠ w'.date := by
        intro w' hw' hc
        exact hn.1 (by rw [hc]; exact List.mem_map_of_mem _ hw')
      rw [wfind_foldl_refreshStep_notMem hout]
      unfold refreshStep
      rw [if_neg (by omega)]
      cases hm : wfind m w.date with
      | none => simp [hm, wfind_wset_self]
      | some x => simp [hm]
    · have hd : w.date ≠ n.date := by
        intro hc
        exact hn.1 (by rw [← hc]; exact List.mem_map_of_mem _ hw)
      rw [ih hn.2 hw, wfind_refreshStep_ne hd]

theorem wfind_foldl_wsetDate_notMem {ws : List Workout} {init : WMap} {d : String}
    (h : ∀ w ∈ ws, d ≠ w.date) :
    wfind (ws.foldl (fun m w => wset m w.date w) init) d = wfind init d := by
  induction ws generalizing init with
  | nil => rfl
  | cons n rest ih =>
    rw [List.foldl_cons, ih (fun w hw => h w (List.mem_cons_of_mem _ hw))]
    exact wfind_wset_ne _ _ _ _ (h n (List.mem_cons_self _ _))

theorem wfind_foldl_wsetDate_self {ws : List Workout} {init : WMap} {w : Workout}
    (hn : (ws.map Workout.date).Nodup) (hw : w ∈ ws) :
    wfind (ws.foldl (fun m w => wset m w.date w) init) w.date = some w := by
  induction ws generalizing init with
  | nil => cases hw
  | cons n rest ih =>
    rw [List.foldl_cons]
    rw [List.map_cons, List.nodup_cons] at hn
    rcases List.mem_cons.mp hw with rfl | hw
    · have hout : ∀ w' ∈ rest, w.date ≠ w'.date := by
        intro w' hw' hc
        exact hn.1 (by rw [hc]; exact List.mem_map_of_mem _ hw')
      rw [wfind_foldl_wsetDate_notMem hout]
      exact wfind_wset_self _ _ _
    · exact ih hn.2 hw

theorem wkeys_nodup_refreshStep {m : WMap} (w : Workout)
    (h : (wkeys m).Nodup) : (wkeys (refreshStep m w)).Nodup := by
  unfold refreshStep
  split
  · exact wkeys_nodup_wset _ _ h
  · split
    · exact h
    · exact wkeys_nodup_wset _ _ h

theorem datesConsistent_refreshStep {m : WMap} (w : Workout)
    (h : datesConsistent m) : datesConsistent (refreshStep m w) := by
  unfold refreshStep
  split
  · exact datesConsistent_wset h rfl
  · split
    · exact h
    · exact datesConsistent_wset h rfl

theorem wkeys_nodup_foldl_refreshStep {ns : List Workout} {m : WMap}
    (h : (wkeys m).Nodup) : (wkeys (ns.foldl refreshStep m)).Nodup := by
  induction ns generalizing m with
  | nil => exact h
  | cons n rest ih => exact ih (wkeys_nodup_refreshStep _ h)

theorem datesConsistent_foldl_refreshStep {ns : List Workout} {m : WMap}
    (h : datesConsistent m) : datesConsistent (ns.foldl refreshStep m) := by
  induction ns generalizing m with
  | nil => exact h
  | cons n rest ih => exact ih (datesConsistent_refreshStep _ h)

theorem wkeys_nodup_foldl_wsetDate {ws : List Workout} {init : WMap}
    (h : (wkeys init).Nodup) :
    (wkeys (ws.foldl (fun m w => wset m w.date w) init)).Nodup := by
  induction ws generalizing init with
  | nil => exact h
  | cons n rest ih => exact ih (wkeys_nodup_wset _ _ h)

theorem datesConsistent_foldl_wsetDate {ws : List Workout} {init : WMap}
    (h : datesConsistent init) :
    datesConsistent (ws.foldl (fun m w => wset m w.date w) init) := by
  induction ws generalizing init with
  | nil => exact h
  | cons n rest ih => exact ih (datesConsistent_wset h rfl)

theorem nodup_dates_unique {l : List Workout} (hn : (l.map Workout.date).Nodup)
    {a b : Workout} (ha : a ∈ l) (hb : b ∈ l) (hd : a.date = b.date) : a = b :=
  List.inj_on_of_nodup_map hn ha hb hd

/-- C10.  Presentation-layer merge overwrites by date, newest wins: the
merged list has at most one workout per date and is sorted by date
descending (with respect to any date interpretation `getTime`); and, when
the incoming and existing lists each carry pairwise-distinct dates, an
incoming workout with a non-empty exercises list is in the merged result
and is the unique workout of its date (so it replaced any existing workout
of that date wholesale, discarding its sets and bestEstimated1RM), an
incoming workout with an empty exercises list is added when no existing
workout has its date, and the existing workout of such a date is kept. -/
theorem presentation_merge_by_date (getTime : String → Int)
    (workouts newWorkouts : List Workout) :
    (((mergeNewWorkouts getTime workouts newWorkouts).map Workout.date).Nodup
      ∧ List.Sorted (dateDescRel getTime) (mergeNewWorkouts getTime workouts newWorkouts))
    ∧ ((newWorkouts.map Workout.date).Nodup → (workouts.map Workout.date).Nodup →
        (∀ w ∈ newWorkouts, w.exercises.length > 0 →
          w ∈ mergeNewWorkouts getTime workouts newWorkouts ∧
          (∀ e ∈ mergeNewWorkouts getTime workouts newWorkouts, e.date = w.date → e = w))
        ∧ (∀ w ∈ newWorkouts, w.exercises.length = 0 →
            (∀ e ∈ workouts, e.date ≠ w.date) →
            w ∈ mergeNewWorkouts getTime workouts newWorkouts)
        ∧ (∀ w ∈ newWorkouts, w.exercises.length = 0 →
            ∀ e ∈ workouts, e.date = w.date →
            e ∈ mergeNewWorkouts getTime workouts newWorkouts)) := by
  have hconsist : datesConsistent
      (newWorkouts.foldl refreshStep
        (workouts.foldl (fun m w => wset m w.date w) ([] : WMap))) :=
    datesConsistent_foldl_refreshStep
      (datesConsistent_foldl_wsetDate (fun p hp => by cases hp))
  have hkeys : (wkeys
      (newWorkouts.foldl refreshStep
        (workouts.foldl (fun m w => wset m w.date w) ([] : WMap)))).Nodup :=
    wkeys_nodup_foldl_refreshStep (wkeys_nodup_foldl_wsetDate (by simp [wkeys]))
  have hvals : ((wvalues
      (newWorkouts.foldl refreshStep
        (workouts.foldl (fun m w => wset m w.date w) ([] : WMap)))).map Workout.date).Nodup := by
    rw [wvalues_map_date hconsist]
    exact hkeys
  have hout : ((mergeNewWorkouts getTime workouts newWorkouts).map Workout.date).Nodup := by
    unfold mergeNewWorkouts
    exact ((sortByDateDesc_perm getTime _).map Workout.date).symm.nodup hvals
  have hmem : ∀ {w : Workout},
      wfind (newWorkouts.foldl refreshStep
        (workouts.foldl (fun m w => wset m w.date w) ([] : WMap))) w.date = some w →
      w ∈ mergeNewWorkouts getTime workouts newWorkouts := by
    intro w hw
    unfold mergeNewWorkouts
    exact mem_sortByDateDesc (wfind_mem_wvalues hw)
  refine ⟨⟨hout, sortByDateDesc_sorted _ _⟩, fun hnew hold => ⟨?_, ?_, ?_⟩⟩
  · intro w hw hne
    have hfind := wfind_foldl_refreshStep_nonempty (m :=
      workouts.foldl (fun m w => wset m w.date w) ([] : WMap)) hnew hw hne
    have hmemw := hmem hfind
    exact ⟨hmemw, fun e he hde => nodup_dates_unique hout he hmemw hde⟩
  · intro w hw hne hnone
    have hfind0 : wfind (workouts.foldl (fun m w => wset m w.date w) ([] : WMap)) w.date
        = none := by
      rw [wfind_foldl_wsetDate_notMem (fun e he hc => hnone e he (by rw [hc]))]
      rfl
    have hfind := wfind_foldl_refreshStep_empty (m :=
      workouts.foldl (fun m w => wset m w.date w) ([] : WMap)) hnew hw hne
    rw [hfind0] at hfind
    exact hmem hfind
  · intro w hw hne e he hde
    have hfind0 : wfind (workouts.foldl (fun m w => wset m w.date w) ([] : WMap)) w.date
        = some e := by
      rw [← hde]
      exact wfind_foldl_wsetDate_self hold he
    have hfind := wfind_foldl_refreshStep_empty (m :=
      workouts.foldl (fun m w => wset m w.date w) ([] : WMap)) hnew hw hne
    rw [hfind0] at hfind
    rw [← hde] at hfind
    exact hmem hfind

/-- An incoming refreshed workout for the same date with different content. -/
def wJan1New : Workout :=
  { date := "2025-01-01", programWorkoutId := some 9,
    exercises := [{ id := 1, title := "Back Squat", sets := [set315],
                    bestEstimated1RM := some 354 }] }

/-- Witness for C10: folding an incoming non-empty workout into a list that
already holds a different workout of the same date makes the incoming
workout the unique workout of that date in the merged result. -/
theorem presentation_merge_by_date_witness :
    ([wJan1New].map Workout.date).Nodup ∧ ([wJan1].map Workout.date).Nodup ∧
      wJan1New.exercises.length > 0 ∧
      (wJan1New ∈ mergeNewWorkouts (fun _ => 0) [wJan1] [wJan1New] ∧
        ∀ e ∈ mergeNewWorkouts (fun _ => 0) [wJan1] [wJan1New],
          e.date = wJan1New.date → e = wJan1New) :=
  ⟨by decide, by decide, by decide,
    ((presentation_merge_by_date (fun _ => 0) [wJan1] [wJan1New]).2
        (by decide) (by decide)).1 wJan1New (by decide) (by decide)⟩

/-!
Batching of per-exercise detail fetches.  Both `processExercisesInBatches`
(workoutUtils.ts lines 470-487) and the batch loop of
`processWorkoutsFromExercises` (lines 727-762) iterate
`for (let i = 0; i < list.length; i += MAX_CONCURRENT_REQUESTS)` and take the
slice `[i, i + MAX_CONCURRENT_REQUESTS)` as one concurrently awaited batch
(`Promise.all`), fully resolved before the next batch is dispatched.
-/

/-- Maximum number of concurrent requests (workoutUtils.ts line 215). -/
def MAX_CONCURRENT_REQUESTS : Nat := 5

/-- The sequence of batches dispatched by the batch loops: slice
`[i, i + MAX_CONCURRENT_REQUESTS)` then continue from
`i + MAX_CONCURRENT_REQUESTS`. -/
def sliceBatches {α : Type} (l : List α) (i : Nat) : List (List α) :=
  if i < l.length then
    ((l.drop i).take MAX_CONCURRENT_REQUESTS) :: sliceBatches l (i + MAX_CONCURRENT_REQUESTS)
  else []
termination_by l.length - i
decreasing_by
  simp only [MAX_CONCURRENT_REQUESTS]
  omega

theorem sliceBatches_eq {α : Type} (l : List α) (i : Nat) :
    sliceBatches l i =
      if i < l.length then
        ((l.drop i).take MAX_CONCURRENT_REQUESTS) :: sliceBatches l (i + MAX_CONCURRENT_REQUESTS)
      else [] := by
  rw [sliceBatches]

theorem sliceBatches_spec {α : Type} (l : List α) :
    ∀ fuel i, l.length - i ≤ fuel →
      (sliceBatches l i).flatten = l.drop i ∧
      (sliceBatches l i).length = (l.length - i + 4) / 5 ∧
      ∀ b ∈ sliceBatches l i, b.length ≤ 5 ∧ b ≠ [] := by
  intro fuel
  induction fuel with
  | zero =>
    intro i hi
    have hle : l.length ≤ i := by omega
    have hdrop : l.drop i = [] := List.drop_eq_nil_of_le hle
    rw [sliceBatches_eq, if_neg (by omega)]
    exact ⟨by simp [hdrop], by simp; omega, fun b hb => nomatch hb⟩
  | succ fuel ih =>
    intro i hi
    by_cases h : i < l.length
    · have hcond : l.length - (i + MAX_CONCURRENT_REQUESTS) ≤ fuel := by
        simp only [MAX_CONCURRENT_REQUESTS]
        omega
      obtain ⟨j1, j2, j3⟩ := ih (i + MAX_CONCURRENT_REQUESTS) hcond
      rw [sliceBatches_eq, if_pos h]
      refine ⟨?_, ?_, ?_⟩
      · rw [List.flatten_cons, j1, ← List.drop_drop]
        exact List.take_append_drop _ _
      · rw [List.length_cons, j2]
        simp only [MAX_CONCURRENT_REQUESTS]
        omega
      · intro b hb
        rcases List.mem_cons.mp hb with rfl | hb
        · constructor
          · simp only [MAX_CONCURRENT_REQUESTS, List.length_take]
            omega
          · have hpos : ((l.drop i).take MAX_CONCURRENT_REQUESTS).length > 0 := by
              simp only [MAX_CONCURRENT_REQUESTS, List.length_take, List.length_drop]
              omega
            exact List.ne_nil_of_length_pos hpos
        · exact j3 b hb
    · have hle : l.length ≤ i := by omega
      have hdrop : l.drop i = [] := List.drop_eq_nil_of_le hle
      rw [sliceBatches_eq, if_neg h]
      exact ⟨by simp [hdrop], by simp; omega, fun b hb => nomatch hb⟩

/-- C8.  Bounded-concurrency batching: the per-exercise detail fetches are
dispatched in the batches `sliceBatches l 0`; there are exactly
ceil(n / 5) batches for n exercises, every batch is non-empty with at most
5 requests (so never more than 5 outstanding detail requests, each batch
being fully awaited by `Promise.all` before the next is dispatched), and
the batches partition the exercise list in order. -/
theorem batching_bounded (l : List Exercise) :
    (sliceBatches l 0).length = (l.length + 4) / 5 ∧
      (∀ b ∈ sliceBatches l 0, b.length ≤ 5 ∧ b ≠ []) ∧
      (sliceBatches l 0).flatten = l := by
  obtain ⟨j1, j2, j3⟩ := sliceBatches_spec l l.length 0 (by omega)
  exact ⟨by rw [j2]; omega, j3, by rw [j1]; rfl⟩

/-- Twelve distinct exercises. -/
def exercises12 : List Exercise :=
  (List.range 12).map (fun n => { id := (n : Int), title := "ex" })

/-- Witness for C8 at the spec's example: 12 exercises are dispatched in
exactly ceil(12 / 5) = 3 batches, each of size at most 5. -/
theorem batching_bounded_witness :
    (sliceBatches exercises12 0).length = 3 ∧
      ((exercises12.take 5) ∈ sliceBatches exercises12 0 ∧
        (exercises12.take 5).length ≤ 5) := by
  obtain ⟨j1, j2, _⟩ := batching_bounded exercises12
  have hmem : (exercises12.take 5) ∈ sliceBatches exercises12 0 := by
    rw [sliceBatches_eq, if_pos (by decide)]
    exact List.mem_cons_self _ _
  exact ⟨by rw [j1]; rfl, hmem, (j2 _ hmem).1⟩

/-!
The sync orchestrator.  `getWorkoutHistory` (workoutUtils.ts lines 139-555)
and `fetchNewWorkouts` (lines 585-667) are embedded as pure functions over:

* an `Env` of pre-determined remote responses, the ambient dates, the JS
  date parser, and the optional progress reporter (modelled as a predicate
  saying at which values the callback throws);
* a typed `Store` standing for localStorage (every storage access in the
  source is wrapped in try/catch and degrades to a miss or no-op, so the
  store is modelled total);
* a `Trace` of observable events: progress values passed to the reporter
  and exercise ids of dispatched detail fetches.

JavaScript exceptions are `Except Unit`; a try/catch boundary is a match
that keeps the state reached at the throw point.
-/

/-- The auth payload fields the orchestrator uses. -/
structure AuthData where
  session_id : String
  id : Int
deriving DecidableEq, Repr

/-- Typed localStorage: the auth cache, the exercise-list cache, the
per-exercise history caches and the persisted workouts. -/
structure Store where
  auth : Option AuthData
  exercisesList : Option (List Exercise)
  exerciseHistory : List (Int × List HistoryEntry)
  workouts : Option (List Workout)
deriving DecidableEq, Repr

/-- Observable events of a sync pass. -/
structure Trace where
  progress : List Nat
  detailFetches : List Int
deriving DecidableEq, Repr

/-- State threaded through a sync pass. -/
structure St where
  store : Store
  trace : Trace
deriving DecidableEq, Repr

/-- Remote responses and ambient runtime behaviour for one sync pass.
`reporter = some f` means an `onProgress` callback is present and throws
exactly at the values `p` with `f p = true`; `.error ()` in a response
models the call (or the response-shape check around it) throwing.
`historyResult` feeds the first `getHistory` call of a pass and
`historyResult2` the forced re-fetch inside the incremental block. -/
structure Env where
  reporter : Option (Nat → Bool)
  authResult : Except Unit AuthData
  historyResult : Except Unit (Option (List Exercise))
  historyResult2 : Except Unit (Option (List Exercise))
  recentResult : Except Unit (Option (List RecentWorkout))
  detailResult : Int → Except Unit (Option (List HistoryEntry))
  today : String
  threeDaysAgo : String
  getTime : String → Int

/-- Result of a step: the state reached and either a value or a thrown
exception. -/
abbrev Res (α : Type) := St × Except Unit α

/-- An `onProgress?.(p)` call site: no-op when absent; when present the
value is delivered and the callback may throw. -/
def callProgress (reporter : Option (Nat → Bool)) (p : Nat) (s : St) : Res Unit :=
  match reporter with
  | none => (s, .ok ())
  | some f =>
    ({ s with trace := { s.trace with progress := s.trace.progress ++ [p] } },
     if f p then .error () else .ok ())

/-- A reporter that never throws (or is absent). -/
def reporterBenign (env : Env) : Prop :=
  ∀ f, env.reporter = some f → ∀ p, f p = false

def saveAuth (s : St) (a : AuthData) : St :=
  { s with store := { s.store with auth := some a } }

def saveExercises (s : St) (l : List Exercise) : St :=
  { s with store := { s.store with exercisesList := some l } }

/-- `localStorage.removeItem(CACHE_KEYS.EXERCISES)` (line 285). -/
def removeExercises (s : St) : St :=
  { s with store := { s.store with exercisesList := none } }

def saveWorkouts (s : St) (ws : List Workout) : St :=
  { s with store := { s.store with workouts := some ws } }

/-- Assignment in the per-exercise history cache. -/
def hset (m : List (Int × List HistoryEntry)) (i : Int) (h : List HistoryEntry) :
    List (Int × List HistoryEntry) :=
  match m with
  | [] => [(i, h)]
  | p :: rest => if p.1 == i then (i, h) :: rest else p :: hset rest i h

/-- Lookup in the per-exercise history cache (`getFromCache`). -/
def lookupHistoryCache (st : Store) (i : Int) : Option (List HistoryEntry) :=
  (st.exerciseHistory.find? (fun p => p.1 == i)).map (fun p => p.2)

/-- `saveToCache` of a fresh exercise history (lines 417-420). -/
def saveHistoryCache (s : St) (i : Int) (h : List HistoryEntry) : St :=
  { s with store := { s.store with exerciseHistory := hset s.store.exerciseHistory i h } }

/-- Record a dispatched `getExerciseHistory` request. -/
def recordFetch (s : St) (i : Int) : St :=
  { s with trace := { s.trace with detailFetches := s.trace.detailFetches ++ [i] } }

/-- `fetchWithCache` for the auth category (lines 150-157): a cache hit
returns the stored payload with no network call; otherwise the fetch
function runs (`auth` plus the undefined-data check, both throwing on
failure) and a success is cached. -/
def fetchAuthCached (env : Env) (s : St) : Res AuthData :=
  match s.store.auth with
  | some a => (s, .ok a)
  | none =>
    match env.authResult with
    | .error e => (s, .error e)
    | .ok a => (saveAuth s a, .ok a)

/-- `fetchWithCache` for the exercise list (lines 188-199 and 288-300): a
cache hit returns the stored list; otherwise the fetch function runs, and
throws on transport failure or on a response with no data
(`"Failed to fetch exercise history"`). -/
def fetchExercisesCached (result : Except Unit (Option (List Exercise))) (s : St) :
    Res (List Exercise) :=
  match s.store.exercisesList with
  | some l => (s, .ok l)
  | none =>
    match result with
    | .error e => (s, .error e)
    | .ok none => (s, .error ())
    | .ok (some l) => (saveExercises s l, .ok l)

/-- Progress percentage of the detail-fetch phase (lines 427-428):
`40 + Math.floor((60 * (index + 1)) / exercises.length)`. -/
def progressPercent (index numExercises : Nat) : Nat :=
  40 + 60 * (index + 1) / numExercises

/-- The catch block of `processExercise` (lines 432-466): on a throw, fall
back to the cached history for this exercise when one exists, else report
an empty history; either way the progress report of this path is not
guarded by any further try, so a throwing reporter propagates. -/
def processExerciseCatch (env : Env) (numExercises : Nat) (exercise : Exercise)
    (index : Nat) (s : St) : Res (Exercise × List HistoryEntry) :=
  match lookupHistoryCache s.store exercise.id with
  | some cached =>
    match callProgress env.reporter (progressPercent index numExercises) s with
    | (s, .error e) => (s, .error e)
    | (s, .ok _) => (s, .ok (exercise, cached))
  | none =>
    match callProgress env.reporter (progressPercent index numExercises) s with
    | (s, .error e) => (s, .error e)
    | (s, .ok _) => (s, .ok (exercise, []))

/-- `processExercise` (lines 390-467).  The try block fetches the detail
history; a response without history yields an empty history with no cache
write and no progress report (lines 407-412); a successful response is
cached and reported (the report is still inside the try, so a throwing
reporter lands in the catch); any throw runs the catch block. -/
def processExercise (env : Env) (numExercises : Nat) (exercise : Exercise)
    (index : Nat) (s : St) : Res (Exercise × List HistoryEntry) :=
  let s := recordFetch s exercise.id
  match env.detailResult exercise.id with
  | .ok none => (s, .ok (exercise, []))
  | .ok (some history) =>
    let s := saveHistoryCache s exercise.id history
    match callProgress env.reporter (progressPercent index numExercises) s with
    | (s, .error _) => processExerciseCatch env numExercises exercise index s
    | (s, .ok _) => (s, .ok (exercise, history))
  | .error _ => processExerciseCatch env numExercises exercise index s

/-- One batch of `processExercise` calls (the `.map` of lines 475-479 with
its `Promise.all`), sequentialized in dispatch order; the filter(Boolean)
of line 483 is the identity here since `processExercise` never returns
null for the typed non-null exercises. -/
def processBatch (env : Env) (numExercises : Nat) (batch : List Exercise)
    (i : Nat) (s : St) : Res (List (Exercise × List HistoryEntry)) :=
  match batch with
  | [] => (s, .ok [])
  | ex :: rest =>
    match processExercise env numExercises ex i s with
    | (s, .error e) => (s, .error e)
    | (s, .ok r) =>
      match processBatch env numExercises rest (i + 1) s with
      | (s, .error e) => (s, .error e)
      | (s, .ok rs) => (s, .ok (r :: rs))

/-- `processExercisesInBatches` (lines 470-487): slice off batches of
`MAX_CONCURRENT_REQUESTS` exercises, each fully awaited before the next is
dispatched. -/
def processFrom (env : Env) (exercises : List Exercise) (i : Nat) (s : St) :
    Res (List (Exercise × List HistoryEntry)) :=
  if i < exercises.length then
    match processBatch env exercises.length
        ((exercises.drop i).take MAX_CONCURRENT_REQUESTS) i s with
    | (s, .error e) => (s, .error e)
    | (s, .ok rs) =>
      match processFrom env exercises (i + MAX_CONCURRENT_REQUESTS) s with
      | (s, .error e) => (s, .error e)
      | (s, .ok rest) => (s, .ok (rs ++ rest))
  else (s, .ok [])
termination_by exercises.length - i
decreasing_by
  simp only [MAX_CONCURRENT_REQUESTS]
  omega

/-- JS truthiness of an optional string. -/
def truthyStr (s : Option String) : Bool :=
  match s with
  | some v => !(v == "")
  | none => false

/-- JS truthiness of an optional number. -/
def truthyInt (i : Option Int) : Bool :=
  match i with
  | some v => !(v == 0)
  | none => false

/-- Assignment in the `exercisesToFetch` map (a JS Map keyed by the
stringified exercise id). -/
def eset (m : List (Int × Exercise)) (i : Int) (e : Exercise) : List (Int × Exercise) :=
  match m with
  | [] => [(i, e)]
  | p :: rest => if p.1 == i then (i, e) :: rest else p :: eset rest i e

/-- Collect the exercises referenced by the `exercise_stats` of a workout
list, by stringified-id match against the exercise list (lines 342-363 and
690-704): a stat with a falsy `exercise_id` is skipped, an id with no match
in the list is dropped. -/
def collectStatExercises (exercises : List Exercise) (ws : List RecentWorkout)
    (em : List (Int × Exercise)) : List (Int × Exercise) :=
  ws.foldl (fun em w =>
    match w.exercise_stats with
    | none => em
    | some stats =>
      stats.foldl (fun em stat =>
        if truthyInt stat.exercise_id then
          match exercises.find? (fun e => e.id == stat.exercise_id.getD 0) with
          | some info => eset em info.id info
          | none => em
        else em) em) em

/-- Outcome of the incremental-detection block: either the early return of
the cached workouts, or fall-through with the exercise set to fetch. -/
inductive BlockOut where
  | early (ws : List Workout)
  | cont (exs : List Exercise)
deriving DecidableEq, Repr

/-- The incremental-detection block of `getWorkoutHistory`
(lines 218-387), entered only when cached workouts exist.  Its try/catch
swallows any throw (including a throwing reporter at the 30 and the
early-path 100 report) and continues with the exercise set reached at the
throw point ("Continue with full exercise fetch").  When the range query
yields no data the cached workouts are returned unchanged after a 100
report; otherwise the exercise-list cache is invalidated and re-fetched,
and the exercise set is narrowed to the exercises referenced by new
workouts (remote id not among cached `programWorkoutId`s) and by recent
workouts dated within the last three days, when any such reference
resolves. -/
def incrementalBlock (env : Env) (existingWorkouts : List Workout)
    (mostRecentDate : String) (exercises0 : List Exercise) (s : St) : St × BlockOut :=
  match callProgress env.reporter 30 s with
  | (s, .error _) => (s, .cont exercises0)
  | (s, .ok _) =>
  let _todayString := if env.today = "" then "2099-12-31" else env.today
  let _startDateString := if mostRecentDate = "" then "1970-01-01" else mostRecentDate
  match env.recentResult with
  | .error _ => (s, .cont exercises0)
  | .ok dataOpt =>
  if (dataOpt.getD []).isEmpty then
    match callProgress env.reporter 100 s with
    | (s, .error _) => (s, .cont exercises0)
    | (s, .ok _) => (s, .early existingWorkouts)
  else
    let recentWorkouts := dataOpt.getD []
    let existingWorkoutIds := existingWorkouts.filterMap (fun w =>
      if truthyInt w.programWorkoutId then w.programWorkoutId else none)
    let newWorkouts := recentWorkouts.filter (fun w =>
      match w.id with
      | some i => !(existingWorkoutIds.contains i)
      | none => true)
    let s := removeExercises s
    match fetchExercisesCached env.historyResult2 s with
    | (s, .error _) => (s, .cont exercises0)
    | (s, .ok exercises1) =>
    let recentWorkoutsToCheck := recentWorkouts.filter (fun w =>
      truthyStr w.date && !(env.threeDaysAgo == "") &&
        decide (env.threeDaysAgo ≤ w.date.getD ""))
    let workoutsToProcess := newWorkouts ++ recentWorkoutsToCheck
    let exercisesToFetch := collectStatExercises exercises1 workoutsToProcess []
    if exercisesToFetch.isEmpty then (s, .cont exercises1)
    else (s, .cont (exercisesToFetch.map (fun p => p.2)))

/-- Guard of workoutUtils.ts line 218: the incremental block runs only when
cached workouts exist. -/
def blockOrSkip (env : Env) (existingWorkouts : List Workout) (mostRecentDate : String)
    (exercises0 : List Exercise) (s : St) : St × BlockOut :=
  if existingWorkouts.isEmpty then (s, .cont exercises0)
  else incrementalBlock env existingWorkouts mostRecentDate exercises0 s

/-- `getWorkoutHistory` (lines 139-555): report 0, authenticate
(cache-or-fetch, failure propagates), report 10, load the cached workouts
and their most recent date, fetch the exercise list (cache-or-fetch,
failure propagates), report 20, pre-populate the date map with the cached
workouts, run the incremental block when cached workouts exist (possibly
early-returning the cached list), fetch the detail histories in batches,
merge them into the date map, drop workouts with no exercises, sort by
date descending, persist and return. -/
def getWorkoutHistory (env : Env) (s0 : St) : Res (List Workout) :=
  match callProgress env.reporter 0 s0 with
  | (s, .error e) => (s, .error e)
  | (s, .ok _) =>
  match fetchAuthCached env s with
  | (s, .error e) => (s, .error e)
  | (s, .ok _authData) =>
  match callProgress env.reporter 10 s with
  | (s, .error e) => (s, .error e)
  | (s, .ok _) =>
  -- the cached workouts are read here (lines 166-175); only the auth cache
  -- key can have been written since entry, so the read is taken from the
  -- entry state
  let existingWorkouts := s0.store.workouts.getD []
  let mostRecentDate :=
    match existingWorkouts with
    | [] => "1970-01-01"
    | w :: _ => w.date
  match fetchExercisesCached env.historyResult s with
  | (s, .error e) => (s, .error e)
  | (s, .ok exercises0) =>
  match callProgress env.reporter 20 s with
  | (s, .error e) => (s, .error e)
  | (s, .ok _) =>
  let workoutsByDate := existingWorkouts.foldl (fun m w => wset m w.date w) ([] : WMap)
  match blockOrSkip env existingWorkouts mostRecentDate exercises0 s with
  | (s, .early ws) => (s, .ok ws)
  | (s, .cont exercises) =>
  match processFrom env exercises 0 s with
  | (s, .error e) => (s, .error e)
  | (s, .ok exerciseResults) =>
  let allWorkouts := sortByDateDesc env.getTime
    ((wvalues (mergeResults workoutsByDate exerciseResults)).filter
      (fun w => w.exercises.length > 0))
  let s := saveWorkouts s allWorkouts
  (s, .ok allWorkouts)

/-- Merge of one history entry during the incremental refresh (lines
774-803): unlike the full-sync merge, the entry contributes only when the
date map already holds an entry for its date (created from a recent
workout with exercise stats); within that, malformed sets are filtered and
a WorkoutExercise is appended unless its id is already present. -/
def mergeEntryIfDate (m : WMap) (exercise : Exercise) (entry : HistoryEntry) : WMap :=
  match entry.dateCompleted with
  | none => m
  | some date =>
    if (wfind m date).isSome then
      match entry.sets with
      | none => m
      | some sets =>
        addExercise m date exercise (sets.filter RawSet.isValid) entry.bestEstimated1RM
    else m

/-- Fold a batch's results into the date map, skipping nulls
(lines 769-804). -/
def mergeBatchResults (m : WMap) (results : List (Option (Exercise × List HistoryEntry))) :
    WMap :=
  results.foldl (fun m r =>
    match r with
    | none => m
    | some rr => rr.2.foldl (fun m e => mergeEntryIfDate m rr.1 e) m) m

/-- Pre-population pass of `processWorkoutsFromExercises` (lines 690-717):
one loop over the raw workouts that both collects the referenced exercises
and creates a date-map entry for every workout with a truthy date and a
non-empty `exercise_stats` array. -/
def pwfePrep (exercises : List Exercise) (ws : List RecentWorkout)
    (acc : List (Int × Exercise) × WMap) : List (Int × Exercise) × WMap :=
  ws.foldl (fun acc w =>
    let em := collectStatExercises exercises [w] acc.1
    let m :=
      if truthyStr w.date &&
          (match w.exercise_stats with
           | some stats => decide (stats.length > 0)
           | none => false) then
        if (wfind acc.2 (w.date.getD "")).isNone then
          wset acc.2 (w.date.getD "")
            { date := w.date.getD "", programWorkoutId := w.id, exercises := [] }
        else acc.2
      else acc.2
    (em, m)) acc

/-- One item of the refresh batch (lines 730-759): skipped when the
exercise id is falsy; the detail fetch is recorded; a throw or a response
without history yields null; a success is cached and returned. -/
def fetchDetailItem (env : Env) (exercise : Exercise) (s : St) :
    St × Option (Exercise × List HistoryEntry) :=
  if exercise.id == 0 then (s, none)
  else
    let s := recordFetch s exercise.id
    match env.detailResult exercise.id with
    | .error _ => (s, none)
    | .ok none => (s, none)
    | .ok (some history) => (saveHistoryCache s exercise.id history, some (exercise, history))

/-- One awaited batch of refresh items, in dispatch order. -/
def fetchDetailBatch (env : Env) (batch : List Exercise) (s : St) :
    St × List (Option (Exercise × List HistoryEntry)) :=
  match batch with
  | [] => (s, [])
  | ex :: rest =>
    let r := fetchDetailItem env ex s
    let rs := fetchDetailBatch env rest r.1
    (rs.1, r.2 :: rs.2)

/-- The refresh batch loop (lines 727-805): batches of
`MAX_CONCURRENT_REQUESTS`, a progress report after each batch
(`50 + Math.floor((40 * (i + 5)) / Math.max(len, 1))`, unguarded, so a
throwing reporter propagates), then the batch's results folded into the
date map. -/
def pwfeLoop (env : Env) (exercisesToProcess : List Exercise) (i : Nat) (m : WMap)
    (s : St) : Res WMap :=
  if i < exercisesToProcess.length then
    let br := fetchDetailBatch env
      ((exercisesToProcess.drop i).take MAX_CONCURRENT_REQUESTS) s
    match callProgress env.reporter
        (50 + 40 * (i + MAX_CONCURRENT_REQUESTS) / max exercisesToProcess.length 1) br.1 with
    | (s, .error e) => (s, .error e)
    | (s, .ok _) =>
      pwfeLoop env exercisesToProcess (i + MAX_CONCURRENT_REQUESTS)
        (mergeBatchResults m br.2) s
  else (s, .ok m)
termination_by exercisesToProcess.length - i
decreasing_by
  simp only [MAX_CONCURRENT_REQUESTS]
  omega

/-- `processWorkoutsFromExercises` (lines 677-806): a no-op when either
input list is empty; otherwise pre-populate, then fetch and merge in
batches. -/
def processWorkoutsFromExercises (env : Env) (workouts : List RecentWorkout)
    (exercises : List Exercise) (m : WMap) (s : St) : Res WMap :=
  if workouts.isEmpty || exercises.isEmpty then (s, .ok m)
  else
    let prep := pwfePrep exercises workouts ([], m)
    pwfeLoop env (prep.1.map (fun p => p.2)) 0 prep.2 s

/-- The catch block of `fetchNewWorkouts` (lines 662-666): log, report 100
(unguarded, so a throwing reporter propagates from here) and return the
empty list as the fallback result. -/
def fetchNewWorkoutsCatch (env : Env) (s : St) : Res (List Workout) :=
  match callProgress env.reporter 100 s with
  | (s, .error e) => (s, .error e)
  | (s, .ok _) => (s, .ok [])

/-- `fetchNewWorkouts` (lines 585-667): an empty session token returns []
at once; the 10 report precedes the try, so a throwing reporter aborts the
call; inside the try, the range query, the `getHistory` exercise-list
fetch, the batch processing and every report are all guarded by the
catch-all that degrades to an empty list; the successful path filters out
workouts with no exercises and sorts by date descending. -/
def fetchNewWorkouts (env : Env) (sessionToken : String)
    (mostRecentWorkoutDate : Option String) (s : St) : Res (List Workout) :=
  if sessionToken == "" then (s, .ok [])
  else
  match callProgress env.reporter 10 s with
  | (s, .error e) => (s, .error e)
  | (s, .ok _) =>
  let _validStartDate :=
    match mostRecentWorkoutDate with
    | some d => if d = "" then "1970-01-01" else d
    | none => "1970-01-01"
  let _validEndDate := env.today
  match env.recentResult with
  | .error _ => fetchNewWorkoutsCatch env s
  | .ok dataOpt =>
  match callProgress env.reporter 30 s with
  | (s, .error _) => fetchNewWorkoutsCatch env s
  | (s, .ok _) =>
  if (dataOpt.getD []).isEmpty then
    match callProgress env.reporter 100 s with
    | (s, .error _) => fetchNewWorkoutsCatch env s
    | (s, .ok _) => (s, .ok [])
  else
  let newWorkouts := dataOpt.getD []
  match env.historyResult with
  | .error _ => fetchNewWorkoutsCatch env s
  | .ok none =>
    match callProgress env.reporter 100 s with
    | (s, .error _) => fetchNewWorkoutsCatch env s
    | (s, .ok _) => (s, .ok [])
  | .ok (some exercises) =>
  match callProgress env.reporter 50 s with
  | (s, .error _) => fetchNewWorkoutsCatch env s
  | (s, .ok _) =>
  match processWorkoutsFromExercises env newWorkouts exercises ([] : WMap) s with
  | (s, .error _) => fetchNewWorkoutsCatch env s
  | (s, .ok workoutsByDate) =>
  let sortedWorkouts := sortByDateDesc env.getTime
    ((wvalues workoutsByDate).filter (fun w => w.exercises.length > 0))
  match callProgress env.reporter 100 s with
  | (s, .error _) => fetchNewWorkoutsCatch env s
  | (s, .ok _) => (s, .ok sortedWorkouts)

/-- State effect of a benign progress report. -/
def progressState (reporter : Option (Nat → Bool)) (p : Nat) (s : St) : St :=
  match reporter with
  | none => s
  | some _ => { s with trace := { s.trace with progress := s.trace.progress ++ [p] } }

theorem callProgress_benign {env : Env} (h : reporterBenign env) (p : Nat) (s : St) :
    callProgress env.reporter p s = (progressState env.reporter p s, .ok ()) := by
  cases hr : env.reporter with
  | none => rfl
  | some f => simp [callProgress, progressState, h f hr p]

theorem progressState_store (r : Option (Nat → Bool)) (p : Nat) (s : St) :
    (progressState r p s).store = s.store := by
  cases r <;> rfl

theorem progressState_fetches (r : Option (Nat → Bool)) (p : Nat) (s : St) :
    (progressState r p s).trace.detailFetches = s.trace.detailFetches := by
  cases r <;> rfl

/-- C7 (amended).  Progress-reporter exceptions are not caught at the
reporting sites: a reporter that throws at the initial 0% report aborts
full sync, the exception escaping to the caller instead of the Workout
list (reporter calls that happen to sit inside an existing try block are
swallowed by that block's unrelated catch, not by any dedicated
handling). -/
theorem reporter_throw_aborts_sync (env : Env) (s : St) (f : Nat → Bool)
    (hrep : env.reporter = some f) (h0 : f 0 = true) :
    (getWorkoutHistory env s).2 = .error () := by
  have h : callProgress env.reporter 0 s =
      ({ s with trace := { s.trace with progress := s.trace.progress ++ [0] } }, .error ()) := by
    rw [hrep]
    simp [callProgress, h0]
  simp [getWorkoutHistory, h]

/-- An environment whose reporter always throws. -/
def envThrowingReporter : Env :=
  { reporter := some (fun _ => true),
    authResult := .ok { session_id := "tok", id := 1 },
    historyResult := .ok (some []),
    historyResult2 := .ok (some []),
    recentResult := .ok none,
    detailResult := fun _ => .ok none,
    today := "2025-06-01", threeDaysAgo := "2025-05-29",
    getTime := fun _ => 0 }

/-- The empty starting state. -/
def st0 : St :=
  { store := { auth := none, exercisesList := none, exerciseHistory := [], workouts := none },
    trace := { progress := [], detailFetches := [] } }

/-- Counterexample to C7 as stated: with a reporter that throws, full sync
does not complete with its Workout list; the reporter's exception
propagates out of `getWorkoutHistory`. -/
theorem reporter_throw_aborts_sync_counterexample :
    (getWorkoutHistory envThrowingReporter st0).2 = .error () := rfl

/-- Witness for the amended C7. -/
theorem reporter_throw_aborts_sync_witness :
    envThrowingReporter.reporter = some (fun _ => true) ∧
      (fun (_ : Nat) => true) 0 = true ∧
      (getWorkoutHistory envThrowingReporter
        { st0 with trace := { progress := [], detailFetches := [7] } }).2 = .error () :=
  ⟨rfl, rfl, reporter_throw_aborts_sync envThrowingReporter
    { st0 with trace := { progress := [], detailFetches := [7] } } (fun _ => true) rfl rfl⟩

/-- C6.  Graceful degradation on detail-fetch failure: when the detail
fetch for an exercise throws and the reporter is benign, `processExercise`
returns exactly the cached history when a cache entry exists, and the
empty history when none does — in both cases an ok result (no error
escapes), so the surrounding sync proceeds with that contribution. -/
theorem detail_failure_graceful (env : Env) (numExercises : Nat) (exercise : Exercise)
    (index : Nat) (s : St)
    (hben : reporterBenign env)
    (herr : env.detailResult exercise.id = .error ()) :
    (∀ H, lookupHistoryCache s.store exercise.id = some H →
      (processExercise env numExercises exercise index s).2 = .ok (exercise, H))
    ∧ (lookupHistoryCache s.store exercise.id = none →
      (processExercise env numExercises exercise index s).2 = .ok (exercise, [])) := by
  have hstore : (recordFetch s exercise.id).store = s.store := rfl
  constructor
  · intro H hH
    simp [processExercise, herr, processExerciseCatch, hstore, hH,
      callProgress_benign hben]
  · intro hH
    simp [processExercise, herr, processExerciseCatch, hstore, hH,
      callProgress_benign hben]

/-- Cached history for the witness. -/
def cachedHistory : List HistoryEntry :=
  [{ dateCompleted := some "2025-03-01", programWorkoutId := none,
     sets := some [set225], bestEstimated1RM := some 253 }]

/-- A state whose history cache holds an entry for exercise 1. -/
def stCached : St :=
  { store := { auth := none, exercisesList := none,
               exerciseHistory := [(1, cachedHistory)], workouts := none },
    trace := { progress := [], detailFetches := [] } }

/-- An environment whose detail fetches all throw, with no reporter. -/
def envDetailFails : Env :=
  { reporter := none,
    authResult := .ok { session_id := "tok", id := 1 },
    historyResult := .ok (some [exSquat]),
    historyResult2 := .ok (some [exSquat]),
    recentResult := .ok none,
    detailResult := fun _ => .error (),
    today := "2025-06-01", threeDaysAgo := "2025-05-29",
    getTime := fun _ => 0 }

/-- Witness for C6: with a throwing detail fetch, the cached payload is
used verbatim when present, and the empty history when absent. -/
theorem detail_failure_graceful_witness :
    reporterBenign envDetailFails ∧
      envDetailFails.detailResult exSquat.id = .error () ∧
      lookupHistoryCache stCached.store exSquat.id = some cachedHistory ∧
      (processExercise envDetailFails 1 exSquat 0 stCached).2 = .ok (exSquat, cachedHistory) ∧
      lookupHistoryCache st0.store exSquat.id = none ∧
      (processExercise envDetailFails 1 exSquat 0 st0).2 = .ok (exSquat, []) := by
  have hben : reporterBenign envDetailFails := by
    intro f hf p
    simp [envDetailFails] at hf
  refine ⟨hben, rfl, rfl, ?_, rfl, ?_⟩
  · exact (detail_failure_graceful envDetailFails 1 exSquat 0 stCached hben rfl).1
      cachedHistory rfl
  · exact (detail_failure_graceful envDetailFails 1 exSquat 0 st0 hben rfl).2 rfl

/-- C4.  Short-circuit on empty range: when cached workouts exist, auth and
the exercise list come from cache, the reporter is present and benign, and
the range query returns no data (none or an empty list), full sync returns
the cached workout list unchanged, reports exactly the progress values
0, 10, 20, 30, 100 (ending at 100), and dispatches no per-exercise detail
fetch. -/
theorem short_circuit_on_empty_range (env : Env) (s : St) (f : Nat → Bool)
    (a : AuthData) (exs : List Exercise) (ws : List Workout)
    (ro : Option (List RecentWorkout))
    (hrep : env.reporter = some f) (hben : ∀ p, f p = false)
    (ha : s.store.auth = some a)
    (he : s.store.exercisesList = some exs)
    (hw : s.store.workouts = some ws) (hne : ws ≠ [])
    (hr : env.recentResult = .ok ro) (hro : ro.getD [] = []) :
    ∃ s', getWorkoutHistory env s = (s', .ok ws) ∧
      s'.trace.detailFetches = s.trace.detailFetches ∧
      s'.trace.progress = s.trace.progress ++ [0, 10, 20, 30, 100] := by
  have hcp : ∀ (p : Nat) (s₁ : St), callProgress env.reporter p s₁ =
      ({ s₁ with trace := { s₁.trace with progress := s₁.trace.progress ++ [p] } }, .ok ()) := by
    intro p s₁
    rw [hrep]
    simp [callProgress, hben p]
  have hwe : ws.isEmpty = false := by
    cases ws with
    | nil => exact absurd rfl hne
    | cons x xs => rfl
  simp only [getWorkoutHistory, blockOrSkip, incrementalBlock, hcp, fetchAuthCached,
    fetchExercisesCached, ha, he, hw, hr, hro, hwe, Option.getD_some, List.isEmpty_nil,
    if_true, if_false, Bool.false_eq_true]
  exact ⟨_, rfl, rfl, by simp⟩

/-- Environment for the C4 witness: benign reporter, empty range result. -/
def envEmptyRange : Env :=
  { reporter := some (fun _ => false),
    authResult := .error (),
    historyResult := .error (),
    historyResult2 := .error (),
    recentResult := .ok (some []),
    detailResult := fun _ => .error (),
    today := "2025-06-01", threeDaysAgo := "2025-05-29",
    getTime := fun _ => 0 }

/-- State for the C4 witness: cached auth, exercise list and workouts. -/
def stShortCircuit : St :=
  { store := { auth := some { session_id := "tok", id := 1 },
               exercisesList := some [exSquat],
               exerciseHistory := [],
               workouts := some [wJan1] },
    trace := { progress := [], detailFetches := [] } }

/-- Witness for C4. -/
theorem short_circuit_on_empty_range_witness :
    stShortCircuit.store.workouts = some [wJan1] ∧ ([wJan1] : List Workout) ≠ [] ∧
      envEmptyRange.recentResult = .ok (some []) ∧
      (∃ s', getWorkoutHistory envEmptyRange stShortCircuit = (s', .ok [wJan1]) ∧
        s'.trace.detailFetches = stShortCircuit.trace.detailFetches ∧
        s'.trace.progress = stShortCircuit.trace.progress ++ [0, 10, 20, 30, 100]) := by
  refine ⟨rfl, by simp, rfl, ?_⟩
  exact short_circuit_on_empty_range envEmptyRange stShortCircuit (fun _ => false)
    { session_id := "tok", id := 1 } [exSquat] [wJan1] (some []) rfl (fun p => rfl)
    rfl rfl rfl (by simp) rfl rfl

/-- C5 (amended).  Exercise-list fetch failure: in full sync the failure of
the `getHistory` fetch (with an empty exercise-list cache) is not caught
and propagates to the caller; in the incremental refresh
(`fetchNewWorkouts`) the same failure is caught by the function's catch-all
and an empty list is returned as a fallback instead. -/
theorem exercise_list_failure_paths (env : Env) (s : St)
    (hben : reporterBenign env) (hh : env.historyResult = .error ()) :
    (∀ a, s.store.auth = some a → s.store.exercisesList = none →
      (getWorkoutHistory env s).2 = .error ())
    ∧ (∀ tok mrd w rest, tok ≠ "" → env.recentResult = .ok (some (w :: rest)) →
      (fetchNewWorkouts env tok mrd s).2 = .ok []) := by
  constructor
  · intro a ha hx
    simp only [getWorkoutHistory, callProgress_benign hben, fetchAuthCached,
      fetchExercisesCached, progressState_store, ha, hx, hh]
  · intro tok mrd w rest htok hrec
    have ht : (tok == "") = false := beq_eq_false_iff_ne.mpr htok
    simp only [fetchNewWorkouts, fetchNewWorkoutsCatch, callProgress_benign hben,
      ht, hrec, hh, Option.getD_some, List.isEmpty_cons, if_false, Bool.false_eq_true]

/-- A recent workout used by the C5 counterexample. -/
def rwJune : RecentWorkout :=
  { id := some 5, date := some "2025-06-01", exercise_stats := none }

/-- Environment for the C5 counterexample: non-empty range result, failing
exercise-list fetch, no reporter. -/
def envListFails : Env :=
  { reporter := none,
    authResult := .ok { session_id := "tok", id := 1 },
    historyResult := .error (),
    historyResult2 := .error (),
    recentResult := .ok (some [rwJune]),
    detailResult := fun _ => .ok none,
    today := "2025-06-01", threeDaysAgo := "2025-05-29",
    getTime := fun _ => 0 }

/-- Counterexample to C5 as stated: in the incremental refresh a throwing
exercise-list fetch does not escape; the call returns the empty list as a
fallback. -/
theorem exercise_list_failure_paths_counterexample :
    envListFails.historyResult = .error () ∧
      (fetchNewWorkouts envListFails "tok" (some "2025-01-01") st0).2 = .ok [] :=
  ⟨rfl, rfl⟩

/-- Witness for the amended C5. -/
theorem exercise_list_failure_paths_witness :
    reporterBenign envListFails ∧ st0.store.auth = none ∧
      ((fetchNewWorkouts envListFails "tok" none
        { st0 with trace := { progress := [1], detailFetches := [] } }).2 = .ok []) := by
  have hben : reporterBenign envListFails := by
    intro f hf p
    simp [envListFails] at hf
  refine ⟨hben, rfl, ?_⟩
  exact (exercise_list_failure_paths envListFails
      { st0 with trace := { progress := [1], detailFetches := [] } } hben rfl).2
    "tok" none rwJune [] (by simp) rfl

theorem length_pos_of_mem_sort_filter {gt : String → Int} {l : List Workout} {w : Workout}
    (h : w ∈ sortByDateDesc gt (l.filter (fun w => w.exercises.length > 0))) :
    w.exercises.length > 0 := by
  have hm := (sortByDateDesc_perm gt _).mem_iff.mp h
  simpa using (List.mem_filter.mp hm).2

theorem incrementalBlock_early {env : Env} {ew : List Workout} {mrd : String}
    {ex0 : List Exercise} {s s' : St} {ws : List Workout}
    (h : incrementalBlock env ew mrd ex0 s = (s', .early ws)) : ws = ew := by
  unfold incrementalBlock at h
  simp only [] at h
  repeat' split at h
  all_goals simp_all

theorem blockOrSkip_early {env : Env} {ew : List Workout} {mrd : String}
    {ex0 : List Exercise} {s s' : St} {ws : List Workout}
    (h : blockOrSkip env ew mrd ex0 s = (s', .early ws)) : ws = ew := by
  unfold blockOrSkip at h
  split at h
  · simp_all
  · exact incrementalBlock_early h

/-- C2 (amended).  Non-empty-workout invariant: every list returned by the
incremental refresh (`fetchNewWorkouts`) contains no workout with an empty
exercises sequence, for all inputs; the list returned by full sync
(`getWorkoutHistory`) contains none provided the previously cached workout
list already satisfies the invariant — the short-circuit path returns that
cached list unchanged, without re-filtering it. -/
theorem nonempty_workout_invariant (env : Env) (s : St) :
    (∀ ws, (∀ w ∈ s.store.workouts.getD [], w.exercises.length > 0) →
      (getWorkoutHistory env s).2 = .ok ws → ∀ w ∈ ws, w.exercises.length > 0)
    ∧ (∀ tok mrd ws, (fetchNewWorkouts env tok mrd s).2 = .ok ws →
      ∀ w ∈ ws, w.exercises.length > 0) := by
  constructor
  · intro ws hcache hws w hw
    unfold getWorkoutHistory at hws
    simp only [] at hws
    repeat' split at hws
    all_goals simp at hws
    all_goals
      first
      | (rename_i hblock
         rw [← hws] at hw
         rw [blockOrSkip_early hblock] at hw
         exact hcache w hw)
      | (subst hws
         exact length_pos_of_mem_sort_filter hw)
  · intro tok mrd ws hws w hw
    unfold fetchNewWorkouts fetchNewWorkoutsCatch at hws
    simp only [] at hws
    repeat' split at hws
    all_goals simp at hws
    all_goals
      first
      | (subst hws
         exact absurd hw (List.not_mem_nil w))
      | (subst hws
         exact length_pos_of_mem_sort_filter hw)

/-- A cached workout with an empty exercises sequence (as could sit in
localStorage). -/
def wEmpty : Workout := { date := "2024-12-31", programWorkoutId := none, exercises := [] }

/-- Environment for the C2 counterexample: empty range result, benign
(absent) reporter. -/
def envC2 : Env :=
  { reporter := none,
    authResult := .ok { session_id := "tok", id := 1 },
    historyResult := .ok (some []),
    historyResult2 := .ok (some []),
    recentResult := .ok none,
    detailResult := fun _ => .ok none,
    today := "2025-01-02", threeDaysAgo := "2024-12-30",
    getTime := fun _ => 0 }

/-- State for the C2 counterexample: the cached workout list holds a
workout with no exercises. -/
def stC2 : St :=
  { store := { auth := some { session_id := "tok", id := 1 },
               exercisesList := some [],
               exerciseHistory := [],
               workouts := some [wEmpty] },
    trace := { progress := [], detailFetches := [] } }

/-- Counterexample to C2 as stated: on the short-circuit path full sync
returns the cached list unchanged, so a cached workout with an empty
exercises sequence is returned (and stays persisted). -/
theorem nonempty_workout_invariant_counterexample :
    (getWorkoutHistory envC2 stC2).2 = .ok [wEmpty] ∧ wEmpty.exercises.length = 0 :=
  ⟨rfl, rfl⟩

/-- Witness for the amended C2. -/
theorem nonempty_workout_invariant_witness :
    (∀ w ∈ stShortCircuit.store.workouts.getD [], w.exercises.length > 0) ∧
      (getWorkoutHistory envEmptyRange stShortCircuit).2 = .ok [wJan1] ∧
      wJan1.exercises.length > 0 := by
  refine ⟨by decide, rfl, ?_⟩
  exact (nonempty_workout_invariant envEmptyRange stShortCircuit).1 [wJan1]
    (by decide) rfl wJan1 (by decide)

end TrainHeroic
